import Mathlib

/-!
Verification of the `pyexcel.sheets.matrix` core (`Matrix` data model).

The Python module is shallowly embedded: cell values become the inductive
type `Val`, the mutable `Matrix` object becomes a structure that operations
transform functionally, and Python exceptions become `Except PyError`.
Row/column indices are natural numbers (the nonnegative fragment of Python's
integer indices).
-/

set_option autoImplicit false

namespace Pyexcel

/-- A spreadsheet cell value: `none` models Python's `None`, `str` and `int`
model the scalar payloads the claims exercise.  The empty-string sentinel is
`Val.str ""`. -/
inductive Val where
  | none : Val
  | str : String → Val
  | int : Int → Val
  deriving DecidableEq, Repr

/-- The empty-string sentinel `""` used for padding and for cleared cells. -/
def blank : Val := Val.str ""

/-- The exception kinds raised by the embedded code. -/
inductive PyError where
  | indexError : PyError
  | valueError : PyError
  | typeError : PyError
  deriving DecidableEq, Repr

/-- `_unique(seq)`: order-preserving de-duplication, keeping first
occurrences.  `seen` is the accumulator set of already-emitted elements. -/
def uniqueAux (seen : List Nat) : List Nat → List Nat
  | [] => []
  | x :: xs => if x ∈ seen then uniqueAux seen xs else x :: uniqueAux (x :: seen) xs

/-- `_unique(seq)` from the source. -/
def _unique (seq : List Nat) : List Nat := uniqueAux [] seq

/-- Descending insertion of an element into a descending list. -/
def insertDesc (x : Nat) : List Nat → List Nat
  | [] => [x]
  | y :: ys => if y ≤ x then x :: y :: ys else y :: insertDesc x ys

/-- `sorted(l, reverse=True)`: sort into descending order. -/
def sortDesc : List Nat → List Nat
  | [] => []
  | x :: xs => insertDesc x (sortDesc xs)

/-- `longest_row_number(array)`: 0 on an empty array, else the maximum row
length. -/
def longest_row_number (array : List (List Val)) : Nat :=
  array.foldr (fun r m => max r.length m) 0

/-- One step of `uniform`'s inner loop: a `None` cell becomes the sentinel. -/
def normalizeCell (v : Val) : Val := if v = Val.none then blank else v

/-- The per-row action of `uniform`: replace `None` cells and right-pad to
`width` with the sentinel. -/
def uniformRow (width : Nat) (row : List Val) : List Val :=
  row.map normalizeCell ++ List.replicate (width - row.length) blank

/-- `uniform(array)`: fill in empty strings to make the array rectangular;
returns `(width, normalized_array)`. -/
def uniform (array : List (List Val)) : Nat × List (List Val) :=
  let width := longest_row_number array
  if width = 0 then (0, array)
  else (width, array.map (uniformRow width))

/-- `transpose(in_array)` (module-level helper): output row `i` collects
`c[i]` from every original row `c`, with `''` where `c` is too short. -/
def transpose (in_array : List (List Val)) : List (List Val) :=
  (List.range (longest_row_number in_array)).map
    (fun i => in_array.map (fun c => c.getD i blank))

/-- The length of the shortest row: the truncation bound of Python's
`zip(*array)`. -/
def shortest_row_number : List (List Val) → Nat
  | [] => 0
  | r :: rs => rs.foldl (fun acc x => min acc x.length) r.length

/-- `zip(*array)` (`compact.czip`): column `i` collects `row[i]` from every
row, truncated at the shortest row; empty input yields no columns. -/
def czip (array : List (List Val)) : List (List Val) :=
  (List.range (shortest_row_number array)).map
    (fun i => array.map (fun r => r.getD i Val.none))

/-- Concatenation of all rows, i.e. Python's `chain(*array)`. -/
def flattenAll : List (List Val) → List Val
  | [] => []
  | r :: rs => r ++ flattenAll rs

/-- The `Matrix` object's state: the name-mangled fields `__width` and
`__array`. -/
structure Matrix where
  width : Nat
  array : List (List Val)
  deriving DecidableEq, Repr

namespace Matrix

/-- `Matrix(array)`: the constructor normalizes the input via `uniform`. -/
def ofArray (array : List (List Val)) : Matrix :=
  let p := uniform array
  ⟨p.1, p.2⟩

/-- `number_of_rows()`. -/
def number_of_rows (m : Matrix) : Nat := m.array.length

/-- `number_of_columns()`: the stored width, or 0 when there are no rows. -/
def number_of_columns (m : Matrix) : Nat :=
  if 0 < m.number_of_rows then m.width else 0

/-- `array[row][column]` read access. -/
def get2d (a : List (List Val)) (r c : Nat) : Val :=
  (a.getD r []).getD c Val.none

/-- `self.__array[row][column] = new_value` on an in-range index. -/
def set2d (a : List (List Val)) (r c : Nat) (v : Val) : List (List Val) :=
  a.set r ((a.getD r []).set c v)

/-- `_extend_row(row)`: append one row to the store (width untouched). -/
def _extend_row (m : Matrix) (row : List Val) : Matrix :=
  ⟨m.width, m.array ++ [row]⟩

/-- The loop of `_set_row_at`: for `i` in `[starting, to_)` the call
`cell_value(row_index, i, data[i-starting])` is in range, so it assigns the
cell directly — except that a `None` datum makes `cell_value` take its get
branch, leaving the cell unchanged. -/
def setRowLoop (a : List (List Val)) (row_index starting to_ : Nat)
    (data : List Val) : List (List Val) :=
  (List.range (to_ - starting)).foldl
    (fun acc j =>
      let v := data.getD j Val.none
      if v = Val.none then acc else set2d acc row_index (starting + j) v)
    a

/-- `_set_row_at(row_index, data_array, starting)`. -/
def _set_row_at (m : Matrix) (row_index : Nat) (data_array : List Val)
    (starting : Nat) : Except PyError Matrix :=
  let nrows := m.number_of_rows
  let ncolumns := m.number_of_columns
  if row_index < nrows ∧ starting < ncolumns then
    let real_len := data_array.length + starting
    let to_ := min real_len ncolumns
    let a1 := setRowLoop m.array row_index starting to_ data_array
    let a2 :=
      if ncolumns < real_len then
        let left := ncolumns - starting
        a1.set row_index ((a1.getD row_index []) ++ data_array.drop left)
      else a1
    let p := uniform a2
    .ok ⟨p.1, p.2⟩
  else .error .indexError

/-- `set_row_at(row_index, data_array)`. -/
def set_row_at (m : Matrix) (row_index : Nat) (data_array : List Val) :
    Except PyError Matrix :=
  if row_index < m.number_of_rows then
    let m1 : Matrix := ⟨m.width, m.array.set row_index data_array⟩
    if data_array.length ≠ m1.number_of_columns then
      let p := uniform m1.array
      .ok ⟨p.1, p.2⟩
    else .ok m1
  else .error .indexError

/-- `extend_rows(rows)` in its list-of-rows form: append each row, then
re-normalize. -/
def extend_rows (m : Matrix) (rows : List (List Val)) : Matrix :=
  let a1 := rows.foldl (fun a r => a ++ [r]) m.array
  let p := uniform a1
  ⟨p.1, p.2⟩

/-- `delete_rows(row_indices)`: de-duplicate, sort descending, delete each
index still inside the shrinking array. -/
def delete_rows (m : Matrix) (row_indices : List Nat) : Matrix :=
  if 0 < row_indices.length then
    let sorted_list := sortDesc (_unique row_indices)
    ⟨m.width,
     sorted_list.foldl
       (fun a i => if i < a.length then a.eraseIdx i else a) m.array⟩
  else m

/-- The loop of `set_column_at`: for `i` in `[starting, to_)` the call
`cell_value(i, column_index, data[i-starting])` is in range, so it assigns
the cell directly — except that a `None` datum makes `cell_value` take its
get branch, leaving the cell unchanged. -/
def setColLoop (a : List (List Val)) (column_index starting to_ : Nat)
    (data : List Val) : List (List Val) :=
  (List.range (to_ - starting)).foldl
    (fun acc j =>
      let v := data.getD j Val.none
      if v = Val.none then acc else set2d acc (starting + j) column_index v)
    a

/-- `set_column_at(column_index, data_array, starting)`. -/
def set_column_at (m : Matrix) (column_index : Nat) (data_array : List Val)
    (starting : Nat) : Except PyError Matrix :=
  let nrows := m.number_of_rows
  let ncolumns := m.number_of_columns
  if column_index < ncolumns ∧ starting < nrows then
    let real_len := data_array.length + starting
    let to_ := min real_len nrows
    let a1 := setColLoop m.array column_index starting to_ data_array
    let a2 :=
      if nrows < real_len then
        a1 ++ (List.range (real_len - nrows)).map
          (fun k => List.replicate column_index blank ++
            [data_array.getD (nrows + k - starting) Val.none])
      else a1
    let p := uniform a2
    .ok ⟨p.1, p.2⟩
  else .error .indexError

/-- `_extend_columns_with_rows(rows)`. -/
def _extend_columns_with_rows (m : Matrix) (rows : List (List Val)) : Matrix :=
  let current_nrows := m.number_of_rows
  let current_ncols := m.number_of_columns
  let insert_column_nrows := rows.length
  let array_length := min current_nrows insert_column_nrows
  let a1 := (List.range array_length).foldl
    (fun a i => a.set i ((a.getD i []) ++ rows.getD i [])) m.array
  let a2 :=
    if current_nrows < insert_column_nrows then
      a1 ++ (List.range (insert_column_nrows - current_nrows)).map
        (fun i => List.replicate current_ncols blank ++
          rows.getD (current_nrows + i) [])
    else a1
  let p := uniform a2
  ⟨p.1, p.2⟩

/-- `extend_columns(columns)` in its list-of-columns form. -/
def extend_columns (m : Matrix) (columns : List (List Val)) : Matrix :=
  m._extend_columns_with_rows (Pyexcel.transpose columns)

/-- `delete_columns(column_indices)`: per row, delete each listed column
index below the (stale) width, then recompute the width. -/
def delete_columns (m : Matrix) (column_indices : List Nat) : Matrix :=
  if 0 < column_indices.length then
    let sorted_list := sortDesc (_unique column_indices)
    let ncols := m.number_of_columns
    let a1 := (List.range m.number_of_rows).foldl
      (fun a i =>
        sorted_list.foldl
          (fun a2 j =>
            if j < ncols then a2.set i ((a2.getD i []).eraseIdx j) else a2)
          a)
      m.array
    ⟨longest_row_number a1, a1⟩
  else m

/-- The row-mode loop of `paste`: `number_of_rows` was captured before the
loop, so `nrows` stays fixed while rows are merged or appended. -/
def pasteRowsAux (starting_row col nrows : Nat) :
    Nat → List (List Val) → Matrix → Except PyError Matrix
  | _, [], m => .ok m
  | index, row :: rest, m =>
    let set_index := starting_row + index
    if set_index < nrows then
      match m._set_row_at set_index row col with
      | .error e => .error e
      | .ok m' => pasteRowsAux starting_row col nrows (index + 1) rest m'
    else
      pasteRowsAux starting_row col nrows (index + 1) rest
        (m._extend_row (List.replicate col blank ++ row))

/-- The column-mode loop of `paste`: `number_of_columns` was captured before
the loop, so `ncols` stays fixed while columns are merged or appended. -/
def pasteColsAux (starting_column row0 ncols : Nat) :
    Nat → List (List Val) → Matrix → Except PyError Matrix
  | _, [], m => .ok m
  | index, column :: rest, m =>
    let set_index := starting_column + index
    if set_index < ncols then
      match m.set_column_at set_index column row0 with
      | .error e => .error e
      | .ok m' => pasteColsAux starting_column row0 ncols (index + 1) rest m'
    else
      pasteColsAux starting_column row0 ncols (index + 1) rest
        (m.extend_columns [List.replicate row0 blank ++ column])

/-- `paste(topleft_corner, rows, columns)`.  Python's `if rows:` is true
exactly for a supplied, non-empty list. -/
def paste (m : Matrix) (topleft_corner : Nat × Nat)
    (rows columns : Option (List (List Val))) : Except PyError Matrix :=
  if rows.getD [] ≠ [] then
    let starting_row := topleft_corner.1
    let nrows0 := m.number_of_rows
    let ncols0 := m.number_of_columns
    let m1 :=
      if nrows0 < starting_row then
        (List.range (starting_row - nrows0)).foldl
          (fun acc _ => acc._extend_row (List.replicate ncols0 blank)) m
      else m
    match pasteRowsAux starting_row topleft_corner.2 m1.number_of_rows
        0 (rows.getD []) m1 with
    | .error e => .error e
    | .ok m2 =>
      let p := uniform m2.array
      .ok ⟨p.1, p.2⟩
  else if columns.getD [] ≠ [] then
    match pasteColsAux topleft_corner.2 topleft_corner.1
        m.number_of_columns 0 (columns.getD []) m with
    | .error e => .error e
    | .ok m2 =>
      let p := uniform m2.array
      .ok ⟨p.1, p.2⟩
  else .error .valueError

/-- `cell_value(row, column, new_value)`: in range, `None` means get and any
other value is stored; out of range, get raises and set delegates to
`paste`. -/
def cell_value (m : Matrix) (row column : Nat) (new_value : Val) :
    Except PyError (Option Val × Matrix) :=
  if row < m.number_of_rows ∧ column < m.number_of_columns then
    if new_value = Val.none then
      .ok (some (get2d m.array row column), m)
    else
      .ok (Option.none, ⟨m.width, set2d m.array row column new_value⟩)
  else
    if new_value = Val.none then .error .indexError
    else
      match m.paste (row, column) (some [[new_value]]) Option.none with
      | .error e => .error e
      | .ok m' => .ok (Option.none, m')

/-- One row of `region`: `cell_value` reads at row `r`, columns `cs`. -/
def regionRow (m : Matrix) (r : Nat) : List Nat → Except PyError (List Val)
  | [] => .ok []
  | c :: cs =>
    match m.cell_value r c Val.none with
    | .error e => .error e
    | .ok p =>
      match regionRow m r cs with
      | .error e => .error e
      | .ok vs => .ok (p.1.getD Val.none :: vs)

/-- The row loop of `region`. -/
def regionRows (m : Matrix) (cs : List Nat) : List Nat → Except PyError (List (List Val))
  | [] => .ok []
  | r :: rs =>
    match regionRow m r cs with
    | .error e => .error e
    | .ok row =>
      match regionRows m cs rs with
      | .error e => .error e
      | .ok rest => .ok (row :: rest)

/-- `region(topleft_corner, bottomright_corner)`: the half-open rectangle of
`cell_value` reads. -/
def region (m : Matrix) (topleft_corner bottomright_corner : Nat × Nat) :
    Except PyError (List (List Val)) :=
  regionRows m
    ((List.range (bottomright_corner.2 - topleft_corner.2)).map
      (fun j => topleft_corner.2 + j))
    ((List.range (bottomright_corner.1 - topleft_corner.1)).map
      (fun i => topleft_corner.1 + i))

/-- The inner clearing loop of `cut`: write the sentinel at row `r`, columns
`cs`, threading the matrix through each `cell_value` write. -/
def clearRow : Matrix → Nat → List Nat → Except PyError Matrix
  | m, _, [] => .ok m
  | m, r, c :: cs =>
    match m.cell_value r c (Val.str "") with
    | .error e => .error e
    | .ok p => clearRow p.2 r cs

/-- The outer clearing loop of `cut`. -/
def clearRows : Matrix → List Nat → List Nat → Except PyError Matrix
  | m, _, [] => .ok m
  | m, cs, r :: rs =>
    match clearRow m r cs with
    | .error e => .error e
    | .ok m' => clearRows m' cs rs

/-- `cut(topleft_corner, bottomright_corner)`: read the region, then clear
every cell in it to the sentinel via `cell_value` writes. -/
def cut (m : Matrix) (topleft_corner bottomright_corner : Nat × Nat) :
    Except PyError (List (List Val) × Matrix) :=
  match m.region topleft_corner bottomright_corner with
  | .error e => .error e
  | .ok reg =>
    match clearRows m
      ((List.range (bottomright_corner.2 - topleft_corner.2)).map
        (fun j => topleft_corner.2 + j))
      ((List.range (bottomright_corner.1 - topleft_corner.1)).map
        (fun i => topleft_corner.1 + i)) with
    | .error e => .error e
    | .ok m' => .ok (reg, m')

/-- Instance method `transpose()`: replace the store with the rectangularized
transpose and re-normalize. -/
def transpose (m : Matrix) : Matrix :=
  let a1 := Pyexcel.transpose m.array
  let p := uniform a1
  ⟨p.1, p.2⟩

/-- `filter(column_indices, row_indices)`: immediate deletion, rows first. -/
def filter (m : Matrix) (column_indices row_indices : Option (List Nat)) :
    Matrix :=
  let m1 := match row_indices with
    | Option.none => m
    | some ri => m.delete_rows ri
  match column_indices with
  | Option.none => m1
  | some ci => m1.delete_columns ci

/-- `enumerate()`: cells in row-major order (`chain(*array)`). -/
def enumerate (m : Matrix) : List Val := flattenAll m.array

/-- `reverse()`: cells from the bottom row to the top, right to left. -/
def reverse (m : Matrix) : List Val :=
  flattenAll (m.array.reverse.map List.reverse)

/-- `vertical()`: cells in column-major order (`chain(*czip(*array))`). -/
def vertical (m : Matrix) : List Val := flattenAll (czip m.array)

/-- `columns()`: the list of columns produced by `czip(*array)`. -/
def columns (m : Matrix) : List (List Val) := czip m.array

/-- The rectangularity invariant: every stored row has length
`number_of_columns()`. -/
def Rect (m : Matrix) : Prop :=
  ∀ row ∈ m.array, row.length = m.number_of_columns

instance (m : Matrix) : Decidable m.Rect :=
  inferInstanceAs (Decidable (∀ row ∈ m.array, row.length = m.number_of_columns))

end Matrix

/-- A generic 5-row × 7-column grid of cells `v i j`: every 5×7 matrix
content arises this way. -/
def grid57 (v : Fin 5 → Fin 7 → Val) : List (List Val) :=
  [[v 0 0, v 0 1, v 0 2, v 0 3, v 0 4, v 0 5, v 0 6],
   [v 1 0, v 1 1, v 1 2, v 1 3, v 1 4, v 1 5, v 1 6],
   [v 2 0, v 2 1, v 2 2, v 2 3, v 2 4, v 2 5, v 2 6],
   [v 3 0, v 3 1, v 3 2, v 3 3, v 3 4, v 3 5, v 3 6],
   [v 4 0, v 4 1, v 4 2, v 4 3, v 4 4, v 4 5, v 4 6]]

/-- A 5×7 grid of integer cells. -/
def igrid57 (w : Fin 5 → Fin 7 → Int) : List (List Val) :=
  grid57 (fun i j => Val.int (w i j))

/-- The 7×10 grid that `cut([1,1],[4,5])` followed by `paste([4,6], rows)`
is specified to produce from `grid57 v`: rows 1..3 lose columns 1..4 to the
sentinel, the cut rows land at column 6 of rows 4..6, and every other cell
keeps its prior value (sentinel where none existed). -/
def pasteResult57 (v : Fin 5 → Fin 7 → Val) : List (List Val) :=
  [[v 0 0, v 0 1, v 0 2, v 0 3, v 0 4, v 0 5, v 0 6, blank, blank, blank],
   [v 1 0, blank, blank, blank, blank, v 1 5, v 1 6, blank, blank, blank],
   [v 2 0, blank, blank, blank, blank, v 2 5, v 2 6, blank, blank, blank],
   [v 3 0, blank, blank, blank, blank, v 3 5, v 3 6, blank, blank, blank],
   [v 4 0, v 4 1, v 4 2, v 4 3, v 4 4, v 4 5, v 1 1, v 1 2, v 1 3, v 1 4],
   [blank, blank, blank, blank, blank, blank, v 2 1, v 2 2, v 2 3, v 2 4],
   [blank, blank, blank, blank, blank, blank, v 3 1, v 3 2, v 3 3, v 3 4]]

/-! ### Basic facts about the geometry helpers -/

@[simp] theorem longest_row_number_nil : longest_row_number [] = 0 := rfl

@[simp] theorem longest_row_number_cons (r : List Val) (rs : List (List Val)) :
    longest_row_number (r :: rs) = max r.length (longest_row_number rs) := rfl

theorem length_le_longest {a : List (List Val)} {row : List Val}
    (h : row ∈ a) : row.length ≤ longest_row_number a := by
  induction a with
  | nil => cases h
  | cons r rs ih =>
    rcases List.mem_cons.mp h with rfl | h'
    · simp
    · exact le_trans (ih h') (by simp)

theorem longest_of_const {a : List (List Val)} {w : Nat}
    (h : ∀ row ∈ a, row.length = w) (hne : a ≠ []) :
    longest_row_number a = w := by
  induction a with
  | nil => exact absurd rfl hne
  | cons r rs ih =>
    rcases List.eq_nil_or_concat rs with rfl | _
    · simp [h r (by simp)]
    · have hrs : rs ≠ [] := by
        rintro rfl
        simp_all
      rw [longest_row_number_cons, h r (by simp),
        ih (fun row hrow => h row (List.mem_cons_of_mem _ hrow)) hrs]
      simp

theorem length_uniformRow {w : Nat} {row : List Val} (h : row.length ≤ w) :
    (uniformRow w row).length = w := by
  simp [uniformRow]
  omega

theorem uniform_fst (a : List (List Val)) :
    (uniform a).1 = longest_row_number a := by
  unfold uniform
  by_cases h : longest_row_number a = 0 <;> simp [h]

theorem uniform_snd_length (a : List (List Val)) :
    (uniform a).2.length = a.length := by
  unfold uniform
  by_cases h : longest_row_number a = 0 <;> simp [h]

theorem uniform_eq_of_longest_zero {a : List (List Val)}
    (h : longest_row_number a = 0) : uniform a = (0, a) := by
  simp [uniform, h]

theorem uniform_eq_of_longest_ne_zero {a : List (List Val)}
    (h : longest_row_number a ≠ 0) :
    uniform a =
      (longest_row_number a, a.map (uniformRow (longest_row_number a))) := by
  simp [uniform, h]

theorem uniform_rows_length (a : List (List Val)) :
    ∀ row ∈ (uniform a).2, row.length = (uniform a).1 := by
  intro row hrow
  by_cases h : longest_row_number a = 0
  · rw [uniform_eq_of_longest_zero h] at hrow ⊢
    have hrow' : row ∈ a := hrow
    have := length_le_longest hrow'
    show row.length = 0
    omega
  · rw [uniform_eq_of_longest_ne_zero h] at hrow ⊢
    have hrow' : row ∈ a.map (uniformRow (longest_row_number a)) := hrow
    rcases List.mem_map.mp hrow' with ⟨r, hr, hreq⟩
    show row.length = longest_row_number a
    rw [← hreq]
    exact length_uniformRow (length_le_longest hr)

namespace Matrix

theorem number_of_columns_mk (w : Nat) (a : List (List Val)) :
    (Matrix.mk w a).number_of_columns = if 0 < a.length then w else 0 := rfl

/-- Any matrix whose state is the output of `uniform` is rectangular. -/
theorem rect_mk_uniform (a : List (List Val)) :
    (Matrix.mk (uniform a).1 (uniform a).2).Rect := by
  intro row hrow
  have h1 := uniform_rows_length a row hrow
  have hpos : 0 < (uniform a).2.length := List.length_pos_of_mem hrow
  simpa [number_of_columns, number_of_rows, hpos] using h1

theorem rect_ofArray (a : List (List Val)) : (ofArray a).Rect :=
  rect_mk_uniform a

theorem getD_mem {a : List (List Val)} {r : Nat} (h : r < a.length) :
    a.getD r [] ∈ a := by
  rw [List.getD_eq_getElem?_getD, List.getElem?_eq_getElem h]
  exact List.getElem_mem h

/-- `set2d` on an in-range row of a rectangular matrix preserves
rectangularity: the touched row keeps its length. -/
theorem rect_set2d {m : Matrix} (hm : m.Rect) {r : Nat} (c : Nat) (v : Val)
    (hr : r < m.array.length) :
    (Matrix.mk m.width (set2d m.array r c v)).Rect := by
  intro row hrow
  have hlen : (set2d m.array r c v).length = m.array.length := by
    simp [set2d]
  have hcols : (Matrix.mk m.width (set2d m.array r c v)).number_of_columns
      = m.number_of_columns := by
    simp [number_of_columns, number_of_rows, hlen]
  rw [hcols]
  rcases List.mem_or_eq_of_mem_set hrow with h' | rfl
  · exact hm row h'
  · rw [List.length_set]
    exact hm _ (getD_mem hr)

theorem rect__set_row_at {m : Matrix} {i : Nat} {d : List Val} {s : Nat}
    {m' : Matrix} (h : m._set_row_at i d s = .ok m') : m'.Rect := by
  unfold _set_row_at at h
  dsimp only at h
  split at h
  · simp only [Except.ok.injEq] at h
    rw [← h]
    exact rect_mk_uniform _
  · cases h

theorem rect_set_column_at {m : Matrix} {i : Nat} {d : List Val} {s : Nat}
    {m' : Matrix} (h : m.set_column_at i d s = .ok m') : m'.Rect := by
  unfold set_column_at at h
  dsimp only at h
  split at h
  · simp only [Except.ok.injEq] at h
    rw [← h]
    exact rect_mk_uniform _
  · cases h

theorem rect_set_row_at {m : Matrix} (hm : m.Rect) {i : Nat} {d : List Val}
    {m' : Matrix} (h : m.set_row_at i d = .ok m') : m'.Rect := by
  unfold set_row_at at h
  dsimp only at h
  split at h
  · rename_i hi
    split at h
    · simp only [Except.ok.injEq] at h
      rw [← h]
      exact rect_mk_uniform _
    · rename_i hlen
      simp only [not_not] at hlen
      simp only [Except.ok.injEq] at h
      rw [← h]
      intro row hrow
      have hl : (m.array.set i d).length = m.array.length := by simp
      have hcols : (Matrix.mk m.width (m.array.set i d)).number_of_columns
          = m.number_of_columns := by
        simp [number_of_columns, number_of_rows, hl]
      rw [hcols]
      rcases List.mem_or_eq_of_mem_set hrow with h' | rfl
      · exact hm row h'
      · rw [hlen]
        have hpos : 0 < m.array.length := lt_of_le_of_lt (Nat.zero_le _) hi
        simp [number_of_columns, number_of_rows, hpos]
  · cases h

theorem rect_extend_rows (m : Matrix) (rows : List (List Val)) :
    (m.extend_rows rows).Rect :=
  rect_mk_uniform _

theorem rect__extend_columns_with_rows (m : Matrix) (rows : List (List Val)) :
    (m._extend_columns_with_rows rows).Rect :=
  rect_mk_uniform _

theorem rect_extend_columns (m : Matrix) (columns : List (List Val)) :
    (m.extend_columns columns).Rect :=
  rect_mk_uniform _

theorem rect_transpose (m : Matrix) : (m.transpose).Rect :=
  rect_mk_uniform _

theorem mem_fold_erase {s : List Nat} :
    ∀ {a : List (List Val)} {row : List Val},
      row ∈ s.foldl (fun a i => if i < a.length then a.eraseIdx i else a) a →
      row ∈ a := by
  induction s with
  | nil => intro a row h; exact h
  | cons x xs ih =>
    intro a row h
    rw [List.foldl_cons] at h
    have h2 := ih h
    by_cases hx : x < a.length
    · rw [if_pos hx] at h2
      exact (List.eraseIdx_sublist a x).mem h2
    · rwa [if_neg hx] at h2

theorem rect_delete_rows {m : Matrix} (hm : m.Rect) (l : List Nat) :
    (m.delete_rows l).Rect := by
  unfold delete_rows
  split
  · intro row hrow
    have hrow2 : row ∈ (sortDesc (_unique l)).foldl
        (fun a i => if i < a.length then a.eraseIdx i else a) m.array := hrow
    have hmem : row ∈ m.array := mem_fold_erase hrow2
    have hpos : 0 < ((sortDesc (_unique l)).foldl
        (fun a i => if i < a.length then a.eraseIdx i else a) m.array).length :=
      List.length_pos_of_mem hrow2
    have hpos2 : 0 < m.array.length := List.length_pos_of_mem hmem
    have := hm row hmem
    simp only [number_of_columns, number_of_rows, hpos2, if_pos] at this
    simpa [number_of_columns, number_of_rows, hpos] using this
  · exact hm

theorem getD_set_self (a : List (List Val)) (i : Nat) (x : List Val) :
    (a.set i x).getD i [] = if i < a.length then x else a.getD i [] := by
  by_cases h : i < a.length
  · rw [List.getD_eq_getElem?_getD, List.getElem?_set_self h, if_pos h]
    rfl
  · rw [if_neg h, List.set_eq_of_length_le (le_of_not_lt h)]

theorem set_getD_self (a : List (List Val)) (i : Nat) :
    a.set i (a.getD i []) = a := by
  by_cases h : i < a.length
  · apply List.ext_getElem?
    intro j
    by_cases hij : i = j
    · subst hij
      rw [List.getElem?_set_self h, List.getD_eq_getElem?_getD,
        List.getElem?_eq_getElem h]
      rfl
    · exact List.getElem?_set_ne hij
  · exact List.set_eq_of_length_le (le_of_not_lt h)

/-- The inner loop of `delete_columns` only edits row `i`: it equals a
single `set` of that row to the folded row value. -/
theorem inner_fold_set (C i : Nat) :
    ∀ (js : List Nat) (a : List (List Val)),
      js.foldl
        (fun a2 j => if j < C then a2.set i ((a2.getD i []).eraseIdx j) else a2) a
      = a.set i
          (js.foldl (fun r j => if j < C then r.eraseIdx j else r) (a.getD i [])) := by
  intro js
  induction js with
  | nil =>
    intro a
    rw [List.foldl_nil, List.foldl_nil, set_getD_self]
  | cons j js ih =>
    intro a
    rw [List.foldl_cons, List.foldl_cons]
    by_cases hj : j < C
    · rw [if_pos hj, if_pos hj, ih, getD_set_self]
      by_cases hi : i < a.length
      · rw [if_pos hi, List.set_set]
      · rw [if_neg hi]
        simp only [List.set_eq_of_length_le (le_of_not_lt hi)]
    · rw [if_neg hj, if_neg hj, ih]

theorem foldl_set_tail (g : List Val → List Val) :
    ∀ (l : List Nat) (y : List Val) (t : List (List Val)),
      l.foldl (fun acc n => acc.set (n + 1) (g (acc.getD (n + 1) []))) (y :: t)
        = y :: l.foldl (fun acc n => acc.set n (g (acc.getD n []))) t := by
  intro l
  induction l with
  | nil => intro y t; rfl
  | cons n l ih =>
    intro y t
    rw [List.foldl_cons, List.foldl_cons, List.set_cons_succ,
      List.getD_cons_succ, ih]

/-- Setting every row index in order to a function of that row is `map`. -/
theorem foldl_range_set_eq_map (g : List Val → List Val) :
    ∀ a : List (List Val),
      (List.range a.length).foldl
        (fun acc i => acc.set i (g (acc.getD i []))) a = a.map g := by
  intro a
  induction a with
  | nil => rfl
  | cons x xs ih =>
    rw [List.length_cons, List.range_succ_eq_map, List.foldl_cons]
    have h0 : (x :: xs).set 0 (g ((x :: xs).getD 0 [])) = g x :: xs := rfl
    rw [h0, List.foldl_map]
    have := foldl_set_tail g (List.range xs.length) (g x) xs
    simp only [Nat.succ_eq_add_one] at this ⊢
    rw [this, ih]
    rfl

theorem foldl_erase_length_congr (C : Nat) :
    ∀ (js : List Nat) (r₁ r₂ : List Val), r₁.length = r₂.length →
      (js.foldl (fun r j => if j < C then r.eraseIdx j else r) r₁).length
        = (js.foldl (fun r j => if j < C then r.eraseIdx j else r) r₂).length := by
  intro js
  induction js with
  | nil => intro r₁ r₂ h; exact h
  | cons j js ih =>
    intro r₁ r₂ h
    rw [List.foldl_cons, List.foldl_cons]
    apply ih
    by_cases hj : j < C
    · rw [if_pos hj, if_pos hj, List.length_eraseIdx, List.length_eraseIdx, h]
    · rw [if_neg hj, if_neg hj, h]

theorem rect_delete_columns {m : Matrix} (hm : m.Rect) (l : List Nat) :
    (m.delete_columns l).Rect := by
  unfold delete_columns
  dsimp only
  split
  · intro row hrow
    rw [show (fun (a : List (List Val)) (i : Nat) =>
          (sortDesc (_unique l)).foldl
            (fun a2 j => if j < m.number_of_columns then
              a2.set i ((a2.getD i []).eraseIdx j) else a2) a)
        = (fun (a : List (List Val)) (i : Nat) =>
            a.set i ((fun r => (sortDesc (_unique l)).foldl
              (fun r j => if j < m.number_of_columns then r.eraseIdx j else r) r)
              (a.getD i []))) from
        funext fun a => funext fun i => inner_fold_set _ i _ a,
      show m.number_of_rows = m.array.length from rfl,
      foldl_range_set_eq_map (fun r => (sortDesc (_unique l)).foldl
        (fun r j => if j < m.number_of_columns then r.eraseIdx j else r) r)
        m.array] at hrow ⊢
    rcases List.mem_map.mp hrow with ⟨r, hr, hreq⟩
    have hLrow : ∀ row' ∈ m.array.map (fun r =>
        (sortDesc (_unique l)).foldl
          (fun r j => if j < m.number_of_columns then r.eraseIdx j else r) r),
        row'.length = ((sortDesc (_unique l)).foldl
          (fun r j => if j < m.number_of_columns then r.eraseIdx j else r)
          (List.replicate m.number_of_columns blank)).length := by
      intro row' hrow'
      rcases List.mem_map.mp hrow' with ⟨r', hr', hreq'⟩
      rw [← hreq']
      exact foldl_erase_length_congr _ _ _ _ (by simp [hm r' hr'])
    have hne : m.array.map (fun r =>
        (sortDesc (_unique l)).foldl
          (fun r j => if j < m.number_of_columns then r.eraseIdx j else r) r) ≠ [] := by
      intro hnil
      rw [hnil] at hrow
      cases hrow
    have hlongest := longest_of_const hLrow hne
    have hpos : 0 < (m.array.map (fun r =>
        (sortDesc (_unique l)).foldl
          (fun r j => if j < m.number_of_columns then r.eraseIdx j else r) r)).length :=
      List.length_pos_of_mem hrow
    rw [number_of_columns_mk, if_pos hpos, hlongest]
    exact hLrow row hrow
  · exact hm

theorem rect_paste {m : Matrix} {tl : Nat × Nat}
    {rows columns : Option (List (List Val))} {m' : Matrix}
    (h : m.paste tl rows columns = .ok m') : m'.Rect := by
  unfold paste at h
  dsimp only at h
  split at h
  · split at h
    · cases h
    · simp only [Except.ok.injEq] at h
      rw [← h]
      exact rect_mk_uniform _
  · split at h
    · split at h
      · cases h
      · simp only [Except.ok.injEq] at h
        rw [← h]
        exact rect_mk_uniform _
    · cases h

theorem rect_cell_value {m : Matrix} (hm : m.Rect) {r c : Nat} {v : Val}
    {res : Option Val × Matrix} (h : m.cell_value r c v = .ok res) :
    res.2.Rect := by
  unfold cell_value at h
  split at h
  · rename_i hcond
    split at h
    · simp only [Except.ok.injEq] at h
      rw [← h]
      exact hm
    · simp only [Except.ok.injEq] at h
      rw [← h]
      exact rect_set2d hm c v hcond.1
  · split at h
    · cases h
    · split at h
      · cases h
      · rename_i hp
        simp only [Except.ok.injEq] at h
        rw [← h]
        exact rect_paste hp

theorem rect_clearRow :
    ∀ {cs : List Nat} {m : Matrix} {r : Nat} {m' : Matrix}, m.Rect →
      clearRow m r cs = .ok m' → m'.Rect := by
  intro cs
  induction cs with
  | nil =>
    intro m r m' hm h
    simp only [clearRow, Except.ok.injEq] at h
    rw [← h]
    exact hm
  | cons c cs ih =>
    intro m r m' hm h
    rw [clearRow] at h
    split at h
    · cases h
    · rename_i p hp
      exact ih (rect_cell_value hm hp) h

theorem rect_clearRows :
    ∀ {rs : List Nat} {m : Matrix} {cs : List Nat} {m' : Matrix}, m.Rect →
      clearRows m cs rs = .ok m' → m'.Rect := by
  intro rs
  induction rs with
  | nil =>
    intro m cs m' hm h
    simp only [clearRows, Except.ok.injEq] at h
    rw [← h]
    exact hm
  | cons r rs ih =>
    intro m cs m' hm h
    rw [clearRows] at h
    split at h
    · cases h
    · rename_i m2 hm2
      exact ih (rect_clearRow hm hm2) h

theorem rect_cut {m : Matrix} (hm : m.Rect) {tl br : Nat × Nat}
    {reg : List (List Val)} {m' : Matrix}
    (h : m.cut tl br = .ok (reg, m')) : m'.Rect := by
  unfold cut at h
  split at h
  · cases h
  · split at h
    · cases h
    · rename_i m2 hm2
      simp only [Except.ok.injEq, Prod.mk.injEq] at h
      rw [← h.2]
      exact rect_clearRows hm hm2

theorem rect_filter {m : Matrix} (hm : m.Rect)
    (ci ri : Option (List Nat)) : (m.filter ci ri).Rect := by
  unfold filter
  cases ri with
  | none =>
    cases ci with
    | none => exact hm
    | some ci' => exact rect_delete_columns hm ci'
  | some ri' =>
    cases ci with
    | none => exact rect_delete_rows hm ri'
    | some ci' => exact rect_delete_columns (rect_delete_rows hm ri') ci'

end Matrix

theorem getD_eq_getElem {α : Type} (a : List α) (d : α) {i : Nat}
    (h : i < a.length) : a.getD i d = a[i] := by
  rw [List.getD_eq_getElem?_getD, List.getElem?_eq_getElem h]
  rfl

namespace Matrix

end Matrix

namespace Matrix

theorem extend_row_fold (m : Matrix) (row : List Val) (k : Nat) :
    (List.range k).foldl (fun acc _ => acc._extend_row row) m
      = ⟨m.width, m.array ++ List.replicate k row⟩ := by
  induction k with
  | zero => simp
  | succ k ih =>
    rw [List.range_succ, List.foldl_append, ih, List.foldl_cons,
      List.foldl_nil]
    simp [_extend_row, List.replicate_succ']

/-- The out-of-range set path of `cell_value` when the row index is at or
beyond the row count: `paste` backfills blank rows and appends the
left-padded single-cell row, then re-normalizes. -/
theorem paste_single_grow {m : Matrix} {r c : Nat} (v : Val)
    (hr : m.number_of_rows ≤ r) :
    m.paste (r, c) (some [[v]]) Option.none
      = .ok ⟨(uniform (m.array
            ++ List.replicate (r - m.number_of_rows)
                (List.replicate m.number_of_columns blank)
            ++ [List.replicate c blank ++ [v]])).1,
          (uniform (m.array
            ++ List.replicate (r - m.number_of_rows)
                (List.replicate m.number_of_columns blank)
            ++ [List.replicate c blank ++ [v]])).2⟩ := by
  have hbase : (if m.number_of_rows < r then
        (List.range (r - m.number_of_rows)).foldl
          (fun acc _ =>
            acc._extend_row (List.replicate m.number_of_columns blank)) m
      else m)
      = ⟨m.width, m.array ++ List.replicate (r - m.number_of_rows)
          (List.replicate m.number_of_columns blank)⟩ := by
    by_cases hlt : m.number_of_rows < r
    · rw [if_pos hlt, extend_row_fold]
    · have hre : r - m.number_of_rows = 0 := by omega
      rw [if_neg hlt, hre]
      simp
  have hlenbase : (m.array ++ List.replicate (r - m.number_of_rows)
      (List.replicate m.number_of_columns blank)).length = r := by
    have h0 : m.array.length = m.number_of_rows := rfl
    simp [h0]
    omega
  unfold paste
  dsimp only
  simp only [Option.getD_some]
  rw [if_pos (show ([[v]] : List (List Val)) ≠ [] by simp)]
  rw [hbase]
  have hnr : (Matrix.mk m.width (m.array
      ++ List.replicate (r - m.number_of_rows)
          (List.replicate m.number_of_columns blank))).number_of_rows = r := by
    simpa [number_of_rows] using hlenbase
  rw [hnr]
  have haux : pasteRowsAux r c r 0 [[v]]
      ⟨m.width, m.array ++ List.replicate (r - m.number_of_rows)
          (List.replicate m.number_of_columns blank)⟩
      = .ok ⟨m.width, m.array
          ++ List.replicate (r - m.number_of_rows)
              (List.replicate m.number_of_columns blank)
          ++ [List.replicate c blank ++ [v]]⟩ := by
    rw [pasteRowsAux]
    rw [if_neg (show ¬(r + 0 < r) by omega)]
    rw [pasteRowsAux]
    rfl
  rw [haux]

/-- The out-of-range set path of `cell_value` when the row is in range but
the column is not: `paste` delegates to `_set_row_at`, whose `starting`
bound check fails. -/
theorem paste_single_col_oob {m : Matrix} {r c : Nat} (v : Val)
    (hr : r < m.number_of_rows) (hc : m.number_of_columns ≤ c) :
    m.paste (r, c) (some [[v]]) Option.none = .error .indexError := by
  unfold paste
  dsimp only
  simp only [Option.getD_some]
  rw [if_pos (show ([[v]] : List (List Val)) ≠ [] by simp)]
  rw [if_neg (show ¬(m.number_of_rows < r) from not_lt.mpr (le_of_lt hr))]
  rw [pasteRowsAux]
  rw [if_pos (show r + 0 < m.number_of_rows by omega)]
  have hset : m._set_row_at (r + 0) [v] c = .error .indexError := by
    unfold _set_row_at
    dsimp only
    rw [if_neg (fun hcon => absurd hcon.2 (not_lt.mpr hc))]
  rw [hset]

end Matrix

/-! ### Claim theorems -/

open Matrix

/-- C2: for every rectangular matrix, every public structural operation
(construction, `cell_value` set, `set_row_at`, `set_column_at`,
`extend_rows`, `extend_columns`, `delete_rows`, `delete_columns`, `paste`,
`cut`, `transpose`, `filter`) that completes without error leaves every
stored row with length `number_of_columns()`. -/
theorem claim2_rectangularity (m : Matrix) (hm : m.Rect) :
    (∀ a, (Matrix.ofArray a).Rect)
  ∧ (∀ r c v res, m.cell_value r c v = .ok res → res.2.Rect)
  ∧ (∀ i d m', m.set_row_at i d = .ok m' → m'.Rect)
  ∧ (∀ i d s m', m.set_column_at i d s = .ok m' → m'.Rect)
  ∧ (∀ rows, (m.extend_rows rows).Rect)
  ∧ (∀ cols, (m.extend_columns cols).Rect)
  ∧ (∀ l, (m.delete_rows l).Rect)
  ∧ (∀ l, (m.delete_columns l).Rect)
  ∧ (∀ tl rows cols m', m.paste tl rows cols = .ok m' → m'.Rect)
  ∧ (∀ tl br reg m', m.cut tl br = .ok (reg, m') → m'.Rect)
  ∧ m.transpose.Rect
  ∧ (∀ ci ri, (m.filter ci ri).Rect) :=
  ⟨fun a => rect_ofArray a,
   fun _ _ _ _ h => rect_cell_value hm h,
   fun _ _ _ h => rect_set_row_at hm h,
   fun _ _ _ _ h => rect_set_column_at h,
   fun rows => rect_extend_rows m rows,
   fun cols => rect_extend_columns m cols,
   fun l => rect_delete_rows hm l,
   fun l => rect_delete_columns hm l,
   fun _ _ _ _ h => rect_paste h,
   fun _ _ _ _ h => rect_cut hm h,
   rect_transpose m,
   fun ci ri => rect_filter hm ci ri⟩

/-- C2 witness: the invariant at a concrete matrix and operation. -/
theorem claim2_rectangularity_witness :
    ((Matrix.ofArray [[Val.int 1, Val.int 2], [Val.int 3]]).delete_rows [0]).Rect
  ∧ ((Matrix.ofArray [[Val.int 1, Val.int 2], [Val.int 3]]).transpose).Rect :=
  ⟨(claim2_rectangularity (Matrix.ofArray [[Val.int 1, Val.int 2], [Val.int 3]])
      (by decide)).2.2.2.2.2.2.1 [0],
   (claim2_rectangularity (Matrix.ofArray [[Val.int 1, Val.int 2], [Val.int 3]])
      (by decide)).2.2.2.2.2.2.2.2.2.2.1⟩

/-- C5: `set_row_at` fails with an out-of-bounds error on an index at or
beyond `number_of_rows()` (it never grows the matrix); an in-range index
replaces the row wholesale, re-normalizing the whole matrix exactly when the
new row's length differs from the current width. -/
theorem claim5_set_row_at (m : Matrix) (i : Nat) (d : List Val) :
    (m.number_of_rows ≤ i → m.set_row_at i d = .error .indexError)
  ∧ (i < m.number_of_rows →
      ∃ m', m.set_row_at i d = .ok m'
        ∧ m'.number_of_rows = m.number_of_rows
        ∧ (d.length = m.number_of_columns → m' = ⟨m.width, m.array.set i d⟩)
        ∧ (d.length ≠ m.number_of_columns →
            m' = ⟨(uniform (m.array.set i d)).1,
                  (uniform (m.array.set i d)).2⟩)) := by
  constructor
  · intro hi
    unfold set_row_at
    rw [if_neg (not_lt.mpr hi)]
  · intro hi
    have hpos : 0 < m.array.length := lt_of_le_of_lt (Nat.zero_le _) hi
    have hposset : 0 < (m.array.set i d).length := by
      rw [List.length_set]; exact hpos
    have hcols : (Matrix.mk m.width (m.array.set i d)).number_of_columns
        = m.number_of_columns := by
      simp [number_of_columns, number_of_rows, hpos, hposset]
    by_cases hlen : d.length = m.number_of_columns
    · refine ⟨⟨m.width, m.array.set i d⟩, ?_, by
        simp [number_of_rows], fun _ => rfl, fun hne => absurd hlen hne⟩
      unfold set_row_at
      rw [if_pos hi]
      dsimp only
      rw [if_neg (by rw [hcols]; exact not_not_intro hlen)]
    · refine ⟨⟨(uniform (m.array.set i d)).1, (uniform (m.array.set i d)).2⟩,
        ?_, ?_, fun heq => absurd heq hlen, fun _ => rfl⟩
      · unfold set_row_at
        rw [if_pos hi]
        dsimp only
        rw [if_pos (by rw [hcols]; exact hlen)]
      · show (uniform (m.array.set i d)).2.length = m.array.length
        rw [uniform_snd_length, List.length_set]

/-- C5 witness: both branches at concrete inputs. -/
theorem claim5_set_row_at_witness :
    (Matrix.ofArray [[Val.int 1, Val.int 2]]).set_row_at 3 [Val.int 9]
      = .error .indexError
  ∧ ∃ m', (Matrix.ofArray [[Val.int 1, Val.int 2]]).set_row_at 0 [Val.int 9]
      = .ok m'
      ∧ m'.number_of_rows
          = (Matrix.ofArray [[Val.int 1, Val.int 2]]).number_of_rows
      ∧ ([Val.int 9].length
            = (Matrix.ofArray [[Val.int 1, Val.int 2]]).number_of_columns →
          m' = ⟨(Matrix.ofArray [[Val.int 1, Val.int 2]]).width,
                (Matrix.ofArray [[Val.int 1, Val.int 2]]).array.set 0 [Val.int 9]⟩)
      ∧ ([Val.int 9].length
            ≠ (Matrix.ofArray [[Val.int 1, Val.int 2]]).number_of_columns →
          m' = ⟨(uniform ((Matrix.ofArray [[Val.int 1, Val.int 2]]).array.set 0
                  [Val.int 9])).1,
                (uniform ((Matrix.ofArray [[Val.int 1, Val.int 2]]).array.set 0
                  [Val.int 9])).2⟩) :=
  ⟨(claim5_set_row_at (Matrix.ofArray [[Val.int 1, Val.int 2]]) 3
      [Val.int 9]).1 (by decide),
   (claim5_set_row_at (Matrix.ofArray [[Val.int 1, Val.int 2]]) 0
      [Val.int 9]).2 (by decide)⟩

/-- C6: `uniform` returns the longest row length as the width (0 for the
empty array), keeps the number of rows, and rewrites each row by replacing
null cells with the sentinel and right-padding to the width; in particular
`uniform [[1,2,3],[4]]` gives width 3 with rows `[1,2,3]` and `[4,"",""]`. -/
theorem claim6_uniform (a : List (List Val)) :
    (uniform a).1 = longest_row_number a
  ∧ (uniform a).2.length = a.length
  ∧ (∀ i, i < a.length →
      (uniform a).2.getD i [] =
        (a.getD i []).map normalizeCell
          ++ List.replicate (longest_row_number a - (a.getD i []).length) blank)
  ∧ uniform [] = (0, [])
  ∧ uniform [[Val.int 1, Val.int 2, Val.int 3], [Val.int 4]]
      = (3, [[Val.int 1, Val.int 2, Val.int 3],
             [Val.int 4, blank, blank]]) := by
  refine ⟨uniform_fst a, uniform_snd_length a, ?_, rfl, by decide⟩
  intro i hi
  by_cases h : longest_row_number a = 0
  · rw [uniform_eq_of_longest_zero h]
    have hrow : a.getD i [] ∈ a := getD_mem hi
    have h0 : (a.getD i []).length = 0 :=
      Nat.le_antisymm (h ▸ length_le_longest hrow) (Nat.zero_le _)
    rw [List.length_eq_zero.mp h0, h]
    rfl
  · rw [uniform_eq_of_longest_ne_zero h]
    have hi' : i < (a.map (uniformRow (longest_row_number a))).length := by
      simpa using hi
    rw [getD_eq_getElem _ _ hi', List.getElem_map, getD_eq_getElem _ _ hi]
    rfl

/-- C6 witness: the row equation at a concrete jagged array and index. -/
theorem claim6_uniform_witness :
    (uniform [[Val.int 1], []]).2.getD 1 [] =
      (([[Val.int 1], []] : List (List Val)).getD 1 []).map normalizeCell
        ++ List.replicate (longest_row_number [[Val.int 1], []]
            - (([[Val.int 1], []] : List (List Val)).getD 1 []).length) blank :=
  (claim6_uniform [[Val.int 1], []]).2.2.1 1 (by decide)

/-- C9: on the 3×4 matrix `[[1,2,3,4],[5,6,7,8],[9,10,11,12]]`,
`enumerate()` yields 1..12 row-major, `reverse()` yields 12..1,
`vertical()` yields `[1,5,9,2,6,10,3,7,11,4,8,12]`, and `columns()` yields
`[[1,5,9],[2,6,10],[3,7,11],[4,8,12]]`. -/
theorem claim9_iteration_orders :
    (Matrix.ofArray
      [[Val.int 1, Val.int 2, Val.int 3, Val.int 4],
       [Val.int 5, Val.int 6, Val.int 7, Val.int 8],
       [Val.int 9, Val.int 10, Val.int 11, Val.int 12]]).enumerate
      = [Val.int 1, Val.int 2, Val.int 3, Val.int 4, Val.int 5, Val.int 6,
         Val.int 7, Val.int 8, Val.int 9, Val.int 10, Val.int 11, Val.int 12]
  ∧ (Matrix.ofArray
      [[Val.int 1, Val.int 2, Val.int 3, Val.int 4],
       [Val.int 5, Val.int 6, Val.int 7, Val.int 8],
       [Val.int 9, Val.int 10, Val.int 11, Val.int 12]]).reverse
      = [Val.int 12, Val.int 11, Val.int 10, Val.int 9, Val.int 8, Val.int 7,
         Val.int 6, Val.int 5, Val.int 4, Val.int 3, Val.int 2, Val.int 1]
  ∧ (Matrix.ofArray
      [[Val.int 1, Val.int 2, Val.int 3, Val.int 4],
       [Val.int 5, Val.int 6, Val.int 7, Val.int 8],
       [Val.int 9, Val.int 10, Val.int 11, Val.int 12]]).vertical
      = [Val.int 1, Val.int 5, Val.int 9, Val.int 2, Val.int 6, Val.int 10,
         Val.int 3, Val.int 7, Val.int 11, Val.int 4, Val.int 8, Val.int 12]
  ∧ (Matrix.ofArray
      [[Val.int 1, Val.int 2, Val.int 3, Val.int 4],
       [Val.int 5, Val.int 6, Val.int 7, Val.int 8],
       [Val.int 9, Val.int 10, Val.int 11, Val.int 12]]).columns
      = [[Val.int 1, Val.int 5, Val.int 9], [Val.int 2, Val.int 6, Val.int 10],
         [Val.int 3, Val.int 7, Val.int 11],
         [Val.int 4, Val.int 8, Val.int 12]] := by
  decide

/-- C10: `cell_value(row, column, None)` behaves as a get: in range it
returns the stored value and hands back the unchanged matrix, so a null can
never be stored through `cell_value`; out of range it raises the
out-of-bounds error instead of growing. -/
theorem claim10_cell_value_none (m : Matrix) (r c : Nat) :
    (r < m.number_of_rows → c < m.number_of_columns →
        m.cell_value r c Val.none = .ok (some (get2d m.array r c), m))
  ∧ (∀ res, m.cell_value r c Val.none = .ok res → res.2 = m)
  ∧ (¬(r < m.number_of_rows ∧ c < m.number_of_columns) →
        m.cell_value r c Val.none = .error .indexError) := by
  refine ⟨?_, ?_, ?_⟩
  · intro hr hc
    unfold cell_value
    rw [if_pos ⟨hr, hc⟩, if_pos rfl]
  · intro res h
    unfold cell_value at h
    split at h
    · rw [if_pos rfl] at h
      simp only [Except.ok.injEq] at h
      rw [← h]
    · rw [if_pos rfl] at h
      cases h
  · intro hno
    unfold cell_value
    rw [if_neg hno, if_pos rfl]

/-- C10 witness: the get behaviour at a concrete matrix. -/
theorem claim10_cell_value_none_witness :
    (Matrix.ofArray [[Val.int 7, Val.int 8]]).cell_value 0 1 Val.none
      = .ok (some (get2d (Matrix.ofArray [[Val.int 7, Val.int 8]]).array 0 1),
             Matrix.ofArray [[Val.int 7, Val.int 8]])
  ∧ (Matrix.ofArray [[Val.int 7, Val.int 8]]).cell_value 2 0 Val.none
      = .error .indexError :=
  ⟨(claim10_cell_value_none (Matrix.ofArray [[Val.int 7, Val.int 8]]) 0 1).1
      (by decide) (by decide),
   (claim10_cell_value_none (Matrix.ofArray [[Val.int 7, Val.int 8]]) 2 0).2.2
      (by decide)⟩

/-- C3: cutting `[1,1]..[4,5)` out of a 5×7 matrix of distinct integers and
pasting the cut rows back at `[1,1]` restores the original 5×7 content
exactly. -/
theorem claim3_cut_paste_identity (w : Fin 5 → Fin 7 → Int)
    (hdist : ∀ i j i' j', w i j = w i' j' → i = i' ∧ j = j') :
    ((Matrix.ofArray (igrid57 w)).cut (1, 1) (4, 5)).bind
      (fun rc => rc.2.paste (1, 1) (some rc.1) Option.none)
      = .ok (Matrix.ofArray (igrid57 w)) := by
  simp [igrid57, grid57, Matrix.ofArray, Matrix.cut, Matrix.region,
    Matrix.regionRow, Matrix.regionRows, Matrix.clearRow, Matrix.clearRows,
    Matrix.cell_value, Matrix.get2d, Matrix.set2d, Matrix.number_of_rows,
    Matrix.number_of_columns, uniform, uniformRow, normalizeCell,
    longest_row_number, blank, Matrix.paste, Matrix.pasteRowsAux,
    Matrix._set_row_at, Matrix.setRowLoop, Matrix._extend_row,
    List.range_succ, List.getD, Except.bind]

/-- C3 witness: the identity at a concrete distinct-integer grid. -/
theorem claim3_cut_paste_identity_witness :
    ((Matrix.ofArray (igrid57 (fun i j => (i.val * 7 + j.val : Int)))).cut
        (1, 1) (4, 5)).bind
      (fun rc => rc.2.paste (1, 1) (some rc.1) Option.none)
      = .ok (Matrix.ofArray (igrid57 (fun i j => (i.val * 7 + j.val : Int)))) :=
  claim3_cut_paste_identity (fun i j => (i.val * 7 + j.val : Int)) (by decide)

/-- C4: on a 5×7 matrix (cells already normalized, hence non-null),
`cut([1,1],[4,5])` followed by `paste([4,6], rows=<cut result>)` yields the
7×10 grid `pasteResult57`: rows 1..3 blanked on columns 1..4, the first cut
row merged into row 4 from column 6, the remaining cut rows appended
left-padded to column 6, and all other cells keeping their prior values
(sentinel where none existed). -/
theorem claim4_paste_growth (v : Fin 5 → Fin 7 → Val)
    (h : ∀ i j, v i j ≠ Val.none) :
    ((Matrix.ofArray (grid57 v)).cut (1, 1) (4, 5)).bind
      (fun rc => rc.2.paste (4, 6) (some rc.1) Option.none)
      = .ok ⟨10, pasteResult57 v⟩ := by
  simp [grid57, pasteResult57, Matrix.ofArray, Matrix.cut, Matrix.region,
    Matrix.regionRow, Matrix.regionRows, Matrix.clearRow, Matrix.clearRows,
    Matrix.cell_value, Matrix.get2d, Matrix.set2d, Matrix.number_of_rows,
    Matrix.number_of_columns, uniform, uniformRow, normalizeCell,
    longest_row_number, blank, Matrix.paste, Matrix.pasteRowsAux,
    Matrix._set_row_at, Matrix.setRowLoop, Matrix._extend_row,
    List.range_succ, List.getD, Except.bind, h]

/-- C4 witness: the paste-growth result at the worked example's grid. -/
theorem claim4_paste_growth_witness :
    ((Matrix.ofArray (grid57 (fun i j =>
        Val.int ((i.val + 1) * 10 + j.val + 1)))).cut (1, 1) (4, 5)).bind
      (fun rc => rc.2.paste (4, 6) (some rc.1) Option.none)
      = .ok ⟨10, pasteResult57 (fun i j =>
          Val.int ((i.val + 1) * 10 + j.val + 1))⟩ :=
  claim4_paste_growth (fun i j => Val.int ((i.val + 1) * 10 + j.val + 1))
    (by decide)

/-- C1 counterexample: on the 1×1 matrix `[[1]]`, the out-of-range set
`cell_value(0, 1, 9)` (row in range, column out of range) raises the
out-of-bounds error instead of growing the matrix, so an out-of-range set
via `cell_value` does not always succeed. -/
theorem claim1_counterexample :
    (Matrix.ofArray [[Val.int 1]]).cell_value 0 1 (Val.int 9)
      = .error .indexError := by
  rfl

/-- C1 (amended): an out-of-range get always raises the out-of-bounds error
and leaves the matrix unchanged; an out-of-range set succeeds by growing via
the paste algorithm exactly when the row index is at or beyond
`number_of_rows()`, after which the cell holds the new value; a set whose
row is in range but whose column is out of range raises the out-of-bounds
error. -/
theorem claim1_cell_value_bounds (m : Matrix) (r c : Nat) (v : Val) :
    (¬(r < m.number_of_rows ∧ c < m.number_of_columns) →
        m.cell_value r c Val.none = .error .indexError)
  ∧ (v ≠ Val.none → m.number_of_rows ≤ r →
      ∃ m', m.cell_value r c v = .ok (Option.none, m')
        ∧ get2d m'.array r c = v
        ∧ m'.number_of_rows = r + 1)
  ∧ (v ≠ Val.none → r < m.number_of_rows → m.number_of_columns ≤ c →
        m.cell_value r c v = .error .indexError) := by
  refine ⟨?_, ?_, ?_⟩
  · intro hno
    unfold cell_value
    rw [if_neg hno, if_pos rfl]
  · intro hv hr
    have hcond : ¬(r < m.number_of_rows ∧ c < m.number_of_columns) :=
      fun hcon => absurd hcon.1 (not_lt.mpr hr)
    unfold cell_value
    rw [if_neg hcond, if_neg hv, paste_single_grow v hr]
    refine ⟨_, rfl, ?_, ?_⟩
    · have hmemnew : List.replicate c blank ++ [v] ∈ m.array
          ++ List.replicate (r - m.number_of_rows)
              (List.replicate m.number_of_columns blank)
          ++ [List.replicate c blank ++ [v]] :=
        List.mem_append_right _ (List.mem_singleton.mpr rfl)
      have hlong : longest_row_number (m.array
          ++ List.replicate (r - m.number_of_rows)
              (List.replicate m.number_of_columns blank)
          ++ [List.replicate c blank ++ [v]]) ≠ 0 := by
        have h1 := length_le_longest hmemnew
        simp only [List.length_append, List.length_replicate,
          List.length_singleton] at h1
        omega
      have hmidlen : (m.array ++ List.replicate (r - m.number_of_rows)
          (List.replicate m.number_of_columns blank)).length = r := by
        have h0 : m.array.length = m.number_of_rows := rfl
        simp [h0]
        omega
      rw [uniform_eq_of_longest_ne_zero hlong]
      unfold get2d
      have ha2r : (m.array ++ List.replicate (r - m.number_of_rows)
          (List.replicate m.number_of_columns blank)
          ++ [List.replicate c blank ++ [v]])[r]?
          = some (List.replicate c blank ++ [v]) := by
        rw [List.getElem?_append_right (le_of_eq hmidlen), hmidlen,
          Nat.sub_self]
        rfl
      dsimp only
      simp only [List.getD_eq_getElem?_getD]
      rw [List.getElem?_map, ha2r]
      simp only [Option.map_some', Option.getD_some]
      unfold uniformRow
      rw [List.map_append, List.append_assoc,
        List.getElem?_append_right (by simp), List.length_map,
        List.length_replicate, Nat.sub_self]
      simp only [List.map_cons, List.map_nil, List.cons_append,
        List.getElem?_cons_zero, Option.getD_some]
      unfold normalizeCell
      rw [if_neg hv]
    · show (uniform _).2.length = r + 1
      rw [uniform_snd_length]
      have h0 : m.array.length = m.number_of_rows := rfl
      simp [h0]
      omega
  · intro hv hr hc
    have hcond : ¬(r < m.number_of_rows ∧ c < m.number_of_columns) :=
      fun hcon => absurd hcon.2 (not_lt.mpr hc)
    unfold cell_value
    rw [if_neg hcond, if_neg hv, paste_single_col_oob v hr hc]

/-- C1 witness: the three behaviours at concrete inputs. -/
theorem claim1_cell_value_bounds_witness :
    (Matrix.ofArray [[Val.int 1]]).cell_value 0 1 Val.none
      = .error .indexError
  ∧ (∃ m', (Matrix.ofArray [[Val.int 1]]).cell_value 3 2 (Val.int 9)
        = .ok (Option.none, m')
      ∧ get2d m'.array 3 2 = Val.int 9
      ∧ m'.number_of_rows = 3 + 1)
  ∧ (Matrix.ofArray [[Val.int 1]]).cell_value 0 1 (Val.int 9)
      = .error .indexError :=
  ⟨(claim1_cell_value_bounds (Matrix.ofArray [[Val.int 1]]) 0 1
      (Val.int 9)).1 (by decide),
   (claim1_cell_value_bounds (Matrix.ofArray [[Val.int 1]]) 3 2
      (Val.int 9)).2.1 (by decide) (by decide),
   (claim1_cell_value_bounds (Matrix.ofArray [[Val.int 1]]) 0 1
      (Val.int 9)).2.2 (by decide) (by decide) (by decide)⟩

/-! ### Transpose lemmas for C7 -/

theorem transpose_length (a : List (List Val)) :
    (Pyexcel.transpose a).length = longest_row_number a := by
  simp [Pyexcel.transpose]

theorem transpose_getElem? {a : List (List Val)} {i : Nat}
    (hi : i < longest_row_number a) :
    (Pyexcel.transpose a)[i]? = some (a.map fun c => c.getD i blank) := by
  unfold Pyexcel.transpose
  rw [List.getElem?_map, List.getElem?_range hi]
  rfl

theorem map_id_of {α : Type} {f : α → α} :
    ∀ {l : List α}, (∀ x ∈ l, f x = x) → l.map f = l := by
  intro l
  induction l with
  | nil => intro _; rfl
  | cons x xs ih =>
    intro h
    rw [List.map_cons, h x (by simp), ih (fun y hy => h y (by simp [hy]))]

/-- `uniform` is the identity on a nonempty rectangular array with positive
width and no null cells. -/
theorem uniform_eq_self {a : List (List Val)} {w : Nat} (hne : a ≠ [])
    (hw : 0 < w) (hlen : ∀ r ∈ a, r.length = w)
    (hnone : ∀ r ∈ a, ∀ x ∈ r, x ≠ Val.none) : uniform a = (w, a) := by
  have hl : longest_row_number a = w := longest_of_const hlen hne
  rw [uniform_eq_of_longest_ne_zero (by omega), hl]
  congr 1
  apply map_id_of
  intro r hr
  unfold uniformRow
  rw [hlen r hr, Nat.sub_self, List.replicate_zero, List.append_nil]
  apply map_id_of
  intro x hx
  unfold normalizeCell
  rw [if_neg (hnone r hr x hx)]

theorem transpose_nonefree {a : List (List Val)}
    (h : ∀ r ∈ a, ∀ x ∈ r, x ≠ Val.none) :
    ∀ r ∈ Pyexcel.transpose a, ∀ x ∈ r, x ≠ Val.none := by
  intro r hr x hx
  unfold Pyexcel.transpose at hr
  rcases List.mem_map.mp hr with ⟨i, _, rfl⟩
  rcases List.mem_map.mp hx with ⟨c, hc, rfl⟩
  by_cases hic : i < c.length
  · rw [getD_eq_getElem _ _ hic]
    exact h c hc _ (List.getElem_mem hic)
  · rw [List.getD_eq_getElem?_getD, List.getElem?_len_le (le_of_not_lt hic)]
    intro hcontra
    cases hcontra

theorem transpose_rows_length (a : List (List Val)) :
    ∀ r ∈ Pyexcel.transpose a, r.length = a.length := by
  intro r hr
  unfold Pyexcel.transpose at hr
  rcases List.mem_map.mp hr with ⟨i, _, rfl⟩
  simp

/-- Double transpose is the identity on a rectangular array of positive
width. -/
theorem transpose_transpose_of_rect {a : List (List Val)} {w : Nat}
    (hlen : ∀ r ∈ a, r.length = w) (hw : 0 < w) :
    Pyexcel.transpose (Pyexcel.transpose a) = a := by
  rcases eq_or_ne a [] with rfl | hne
  · rfl
  · have hla : longest_row_number a = w := longest_of_const hlen hne
    have hlent : (Pyexcel.transpose a).length = w := by
      rw [transpose_length, hla]
    have htne : Pyexcel.transpose a ≠ [] := by
      intro h0
      rw [h0] at hlent
      simp at hlent
      omega
    have hlt : longest_row_number (Pyexcel.transpose a) = a.length :=
      longest_of_const (transpose_rows_length a) htne
    apply List.ext_getElem?
    intro j
    by_cases hj : j < a.length
    · rw [transpose_getElem? (by rw [hlt]; exact hj),
        List.getElem?_eq_getElem hj]
      congr 1
      apply List.ext_getElem?
      intro i
      by_cases hi : i < w
      · rw [List.getElem?_map,
          transpose_getElem? (a := a) (by rw [hla]; exact hi)]
        simp only [Option.map_some']
        have hjlen : i < (a[j]).length := by
          rw [hlen a[j] (List.getElem_mem hj)]
          exact hi
        rw [List.getElem?_eq_getElem hjlen]
        congr 1
        rw [getD_eq_getElem _ _ (show j < (a.map fun c => c.getD i blank).length
            by simpa using hj)]
        rw [List.getElem_map]
        exact getD_eq_getElem _ _ hjlen
      · rw [List.getElem?_map,
          List.getElem?_len_le (show (Pyexcel.transpose a).length ≤ i
            by rw [hlent]; exact le_of_not_lt hi),
          List.getElem?_len_le (show (a[j]).length ≤ i
            by rw [hlen a[j] (List.getElem_mem hj)]; exact le_of_not_lt hi)]
        rfl
    · rw [List.getElem?_len_le (show (Pyexcel.transpose
          (Pyexcel.transpose a)).length ≤ j
          by rw [transpose_length, hlt]; exact le_of_not_lt hj),
        List.getElem?_len_le (le_of_not_lt hj)]

/-- C7 counterexample: the constructor-produced rectangular matrix with two
rows and zero columns loses its rows under a double `transpose()`, so the
round trip is not the identity on every rectangular matrix. -/
theorem claim7_counterexample :
    (Matrix.ofArray [[], []]).Rect
  ∧ (Matrix.ofArray [[], []]).transpose.transpose.array
      ≠ (Matrix.ofArray [[], []]).array := by
  decide

/-- C7 (amended): for every rectangular matrix with no null cells and at
least one column, applying the instance `transpose()` twice returns exactly
the original matrix; and the `transpose` helper on any jagged array yields
`longest_row_number` output rows where cell `(i, j)` is row `j`'s cell `i`
when present and the sentinel otherwise. -/
theorem claim7_transpose (m : Matrix) (a : List (List Val)) (i j : Nat)
    (hm : m.Rect) (hnone : ∀ r ∈ m.array, ∀ x ∈ r, x ≠ Val.none)
    (hw : 0 < m.number_of_columns) (hi : i < longest_row_number a)
    (hj : j < a.length) :
    m.transpose.transpose = m
  ∧ (Pyexcel.transpose a).length = longest_row_number a
  ∧ get2d (Pyexcel.transpose a) i j
      = (if i < (a.getD j []).length then get2d a j i else blank) := by
  refine ⟨?_, transpose_length a, ?_⟩
  · have hpos : 0 < m.number_of_rows := by
      by_contra h0
      have : m.number_of_columns = 0 := by
        unfold number_of_columns
        rw [if_neg h0]
      omega
    have hnc : m.number_of_columns = m.width := by
      unfold number_of_columns
      rw [if_pos hpos]
    have hwpos : 0 < m.width := hnc ▸ hw
    have hlen : ∀ r ∈ m.array, r.length = m.width :=
      fun r hr => (hm r hr).trans hnc
    have hane : m.array ≠ [] := by
      intro h0
      have : m.number_of_rows = 0 := by
        unfold number_of_rows
        rw [h0]
        rfl
      omega
    have hla : longest_row_number m.array = m.width := longest_of_const hlen hane
    have htne : Pyexcel.transpose m.array ≠ [] := by
      intro h0
      have h1 : (Pyexcel.transpose m.array).length = 0 := by rw [h0]; rfl
      rw [transpose_length, hla] at h1
      omega
    have hlongt : longest_row_number (Pyexcel.transpose m.array)
        = m.array.length :=
      longest_of_const (transpose_rows_length m.array) htne
    have httne : Pyexcel.transpose (Pyexcel.transpose m.array) ≠ [] := by
      intro h0
      have h1 : (Pyexcel.transpose (Pyexcel.transpose m.array)).length = 0 := by
        rw [h0]; rfl
      rw [transpose_length, hlongt] at h1
      unfold number_of_rows at hpos
      omega
    have ht1 : m.transpose = ⟨m.array.length, Pyexcel.transpose m.array⟩ := by
      unfold Matrix.transpose
      dsimp only
      rw [uniform_eq_self htne hpos (transpose_rows_length m.array)
        (transpose_nonefree hnone)]
      rfl
    rw [ht1]
    unfold Matrix.transpose
    dsimp only
    rw [uniform_eq_self httne hwpos
      (fun r hr => (transpose_rows_length (Pyexcel.transpose m.array) r hr).trans
        (by rw [transpose_length, hla]))
      (transpose_nonefree (transpose_nonefree hnone))]
    rw [transpose_transpose_of_rect hlen hwpos]
  · unfold get2d
    have hrowi : (Pyexcel.transpose a).getD i []
        = a.map (fun c => c.getD i blank) := by
      rw [List.getD_eq_getElem?_getD, transpose_getElem? hi]
      rfl
    rw [hrowi, getD_eq_getElem _ _ (show j < (a.map
        fun c => c.getD i blank).length by simpa using hj),
      List.getElem_map]
    by_cases hia : i < (a[j]).length
    · rw [if_pos (by rw [getD_eq_getElem _ _ hj]; exact hia)]
      rw [getD_eq_getElem _ _ hia, getD_eq_getElem _ _ hj,
        getD_eq_getElem _ _ hia]
    · rw [if_neg (by rw [getD_eq_getElem _ _ hj]; exact hia)]
      rw [List.getD_eq_getElem?_getD, List.getElem?_len_le (le_of_not_lt hia)]
      rfl

/-- C7 witness: the round trip and the helper characterization at concrete
inputs. -/
theorem claim7_transpose_witness :
    (Matrix.ofArray [[Val.int 1, Val.int 2], [Val.int 3, Val.int 4]]).transpose.transpose
      = Matrix.ofArray [[Val.int 1, Val.int 2], [Val.int 3, Val.int 4]]
  ∧ (Pyexcel.transpose [[Val.int 1], [Val.int 2, Val.int 3]]).length
      = longest_row_number [[Val.int 1], [Val.int 2, Val.int 3]]
  ∧ get2d (Pyexcel.transpose [[Val.int 1], [Val.int 2, Val.int 3]]) 1 0
      = (if 1 < (([[Val.int 1], [Val.int 2, Val.int 3]] :
            List (List Val)).getD 0 []).length then
          get2d [[Val.int 1], [Val.int 2, Val.int 3]] 0 1 else blank) := by
  have h1 := claim7_transpose
    (Matrix.ofArray [[Val.int 1, Val.int 2], [Val.int 3, Val.int 4]])
    [[Val.int 1], [Val.int 2, Val.int 3]] 1 0
    (by decide) (by decide) (by decide) (by decide) (by decide)
  have h2 := claim7_transpose
    (Matrix.ofArray [[Val.int 1, Val.int 2], [Val.int 3, Val.int 4]])
    [[Val.int 1], [Val.int 2, Val.int 3]] 1 0
    (by decide) (by decide) (by decide) (by decide) (by decide)
  exact ⟨h1.1, h2.2.1, h2.2.2⟩

/-! ### De-duplication and descending-sort lemmas for C8 -/

theorem uniqueAux_cons_mem {seen : List Nat} {y : Nat} (h : y ∈ seen)
    (ys : List Nat) : uniqueAux seen (y :: ys) = uniqueAux seen ys := by
  rw [show uniqueAux seen (y :: ys)
      = if y ∈ seen then uniqueAux seen ys else y :: uniqueAux (y :: seen) ys
    from rfl, if_pos h]

theorem uniqueAux_cons_not_mem {seen : List Nat} {y : Nat} (h : y ∉ seen)
    (ys : List Nat) :
    uniqueAux seen (y :: ys) = y :: uniqueAux (y :: seen) ys := by
  rw [show uniqueAux seen (y :: ys)
      = if y ∈ seen then uniqueAux seen ys else y :: uniqueAux (y :: seen) ys
    from rfl, if_neg h]

theorem mem_uniqueAux : ∀ (l seen : List Nat) (x : Nat),
    x ∈ uniqueAux seen l ↔ x ∈ l ∧ x ∉ seen := by
  intro l
  induction l with
  | nil =>
    intro seen x
    simp [uniqueAux]
  | cons y ys ih =>
    intro seen x
    by_cases hy : y ∈ seen
    · rw [uniqueAux_cons_mem hy, ih]
      constructor
      · rintro ⟨h1, h2⟩
        exact ⟨List.mem_cons_of_mem _ h1, h2⟩
      · rintro ⟨h1, h2⟩
        rcases List.mem_cons.mp h1 with rfl | h1'
        · exact absurd hy h2
        · exact ⟨h1', h2⟩
    · rw [uniqueAux_cons_not_mem hy]
      simp only [List.mem_cons, ih]
      constructor
      · rintro (rfl | ⟨h1, h2⟩)
        · exact ⟨Or.inl rfl, hy⟩
        · exact ⟨Or.inr h1, fun hc => h2 (Or.inr hc)⟩
      · rintro ⟨h1, h2⟩
        by_cases hxy : x = y
        · exact Or.inl hxy
        · rcases h1 with rfl | h1'
          · exact absurd rfl hxy
          · exact Or.inr ⟨h1', fun hc => hc.elim hxy h2⟩

theorem mem_unique {l : List Nat} {x : Nat} : x ∈ _unique l ↔ x ∈ l := by
  rw [show _unique l = uniqueAux [] l from rfl, mem_uniqueAux]
  simp

theorem nodup_uniqueAux : ∀ (l seen : List Nat), (uniqueAux seen l).Nodup := by
  intro l
  induction l with
  | nil => intro seen; exact List.nodup_nil
  | cons y ys ih =>
    intro seen
    by_cases hy : y ∈ seen
    · rw [uniqueAux_cons_mem hy]
      exact ih seen
    · rw [uniqueAux_cons_not_mem hy]
      refine List.nodup_cons.mpr ⟨?_, ih (y :: seen)⟩
      intro hc
      exact ((mem_uniqueAux ys (y :: seen) y).mp hc).2 (List.mem_cons_self y seen)

theorem uniqueAux_idem : ∀ (l seen : List Nat),
    uniqueAux seen (uniqueAux seen l) = uniqueAux seen l := by
  intro l
  induction l with
  | nil => intro seen; rfl
  | cons y ys ih =>
    intro seen
    by_cases hy : y ∈ seen
    · rw [uniqueAux_cons_mem hy]
      exact ih seen
    · rw [uniqueAux_cons_not_mem hy, uniqueAux_cons_not_mem hy,
        ih (y :: seen)]

theorem unique_ne_nil {l : List Nat} (h : l ≠ []) : _unique l ≠ [] := by
  cases l with
  | nil => exact absurd rfl h
  | cons y ys =>
    rw [show _unique (y :: ys) = uniqueAux [] (y :: ys) from rfl,
      uniqueAux_cons_not_mem (by simp)]
    simp

theorem mem_insertDesc {x z : Nat} :
    ∀ {l : List Nat}, z ∈ insertDesc x l ↔ z = x ∨ z ∈ l := by
  intro l
  induction l with
  | nil => simp [insertDesc]
  | cons y ys ih =>
    unfold insertDesc
    by_cases h : y ≤ x
    · rw [if_pos h]
      simp [List.mem_cons]
    · rw [if_neg h]
      simp only [List.mem_cons, ih]
      tauto

theorem mem_sortDesc {z : Nat} : ∀ {l : List Nat}, z ∈ sortDesc l ↔ z ∈ l := by
  intro l
  induction l with
  | nil => simp [sortDesc]
  | cons y ys ih => simp [sortDesc, mem_insertDesc, ih]

theorem sorted_ge_insertDesc {x : Nat} :
    ∀ {l : List Nat}, l.Sorted (fun a b => b ≤ a) →
      (insertDesc x l).Sorted (fun a b => b ≤ a) := by
  intro l
  induction l with
  | nil =>
    intro _
    simp [insertDesc]
  | cons y ys ih =>
    intro h
    rw [List.sorted_cons] at h
    unfold insertDesc
    by_cases hxy : y ≤ x
    · rw [if_pos hxy, List.sorted_cons]
      refine ⟨?_, List.sorted_cons.mpr h⟩
      intro b hb
      rcases List.mem_cons.mp hb with rfl | hb'
      · exact hxy
      · exact le_trans (h.1 b hb') hxy
    · rw [if_neg hxy, List.sorted_cons]
      refine ⟨?_, ih h.2⟩
      intro b hb
      rcases mem_insertDesc.mp hb with rfl | hb'
      · exact le_of_not_le hxy
      · exact h.1 b hb'

theorem sorted_ge_sortDesc : ∀ (l : List Nat),
    (sortDesc l).Sorted (fun a b => b ≤ a) := by
  intro l
  induction l with
  | nil => exact List.sorted_nil
  | cons y ys ih => exact sorted_ge_insertDesc ih

theorem nodup_insertDesc {x : Nat} :
    ∀ {l : List Nat}, l.Nodup → x ∉ l → (insertDesc x l).Nodup := by
  intro l
  induction l with
  | nil =>
    intro _ _
    simp [insertDesc]
  | cons y ys ih =>
    intro hnd hx
    rw [List.nodup_cons] at hnd
    unfold insertDesc
    by_cases hxy : y ≤ x
    · rw [if_pos hxy, List.nodup_cons, List.nodup_cons]
      exact ⟨hx, hnd.1, hnd.2⟩
    · rw [if_neg hxy, List.nodup_cons]
      refine ⟨fun hc => ?_, ih hnd.2 (fun hc => hx (List.mem_cons_of_mem _ hc))⟩
      rcases mem_insertDesc.mp hc with rfl | hc'
      · exact hx (List.mem_cons_self _ _)
      · exact hnd.1 hc'

theorem nodup_sortDesc : ∀ {l : List Nat}, l.Nodup → (sortDesc l).Nodup := by
  intro l
  induction l with
  | nil => intro _; exact List.nodup_nil
  | cons y ys ih =>
    intro h
    rw [List.nodup_cons] at h
    exact nodup_insertDesc (ih h.2) (fun hc => h.1 (mem_sortDesc.mp hc))

theorem sorted_gt_sortDesc {l : List Nat} (h : l.Nodup) :
    (sortDesc l).Sorted (fun a b => b < a) := by
  have h1 := sorted_ge_sortDesc l
  have h2 : (sortDesc l).Pairwise (fun a b => a ≠ b) := nodup_sortDesc h
  exact (List.Pairwise.and h1 h2).imp
    (fun hab => lt_of_le_of_ne hab.1 (Ne.symm hab.2))

/-- Deleting a strictly descending list of indices skips exactly the indices
at or beyond the initial length: the in-range filter does not change the
fold. -/
theorem foldl_erase_filter :
    ∀ {s : List Nat}, s.Sorted (fun a b => b < a) →
      ∀ a : List (List Val),
        s.foldl (fun a i => if i < a.length then a.eraseIdx i else a) a
          = (s.filter (fun i => decide (i < a.length))).foldl
              (fun a i => if i < a.length then a.eraseIdx i else a) a := by
  intro s
  induction s with
  | nil => intro _ a; rfl
  | cons x rest ih =>
    intro hs a
    rw [List.sorted_cons] at hs
    rw [List.foldl_cons, List.filter_cons]
    by_cases hx : x < a.length
    · have hfilter_rest : rest.filter (fun i => decide (i < a.length)) = rest :=
        List.filter_eq_self.mpr
          (fun y hy => decide_eq_true (lt_trans (hs.1 y hy) hx))
      rw [if_pos hx, if_pos (decide_eq_true hx), List.foldl_cons,
        if_pos hx, hfilter_rest]
    · rw [if_neg hx, if_neg (by simpa using hx)]
      exact ih hs.2 a

theorem sortDesc_unique_filter (l : List Nat) (n : Nat) :
    (sortDesc (_unique l)).filter (fun i => decide (i < n))
      = sortDesc (_unique (l.filter (fun i => decide (i < n)))) := by
  haveI : IsAntisymm Nat (fun a b => b < a) :=
    ⟨fun a b h1 h2 => absurd h1 (lt_asymm h2)⟩
  apply List.eq_of_perm_of_sorted (r := fun a b => b < a)
  · refine (List.perm_ext_iff_of_nodup
      (List.Nodup.filter _ (nodup_sortDesc (nodup_uniqueAux l [])))
      (nodup_sortDesc (nodup_uniqueAux _ []))).mpr ?_
    intro x
    rw [List.mem_filter, mem_sortDesc, mem_sortDesc, mem_uniqueAux,
      mem_uniqueAux, List.mem_filter]
    simp
  · exact List.Sorted.filter _ (sorted_gt_sortDesc (nodup_uniqueAux l []))
  · exact sorted_gt_sortDesc (nodup_uniqueAux _ [])

theorem delete_rows_unique (m : Matrix) (l : List Nat) :
    m.delete_rows l = m.delete_rows (_unique l) := by
  by_cases hl : l = []
  · subst hl
    rfl
  · rw [delete_rows, delete_rows]
    dsimp only
    rw [if_pos (List.length_pos.mpr hl),
      if_pos (List.length_pos.mpr (unique_ne_nil hl)),
      show _unique (_unique l) = _unique l from uniqueAux_idem l []]

theorem delete_rows_filter (m : Matrix) (l : List Nat) :
    m.delete_rows l
      = m.delete_rows (l.filter fun i => decide (i < m.number_of_rows)) := by
  simp only [show m.number_of_rows = m.array.length from rfl]
  by_cases hl : l = []
  · subst hl
    rfl
  · rw [delete_rows, if_pos (List.length_pos.mpr hl)]
    dsimp only
    rw [foldl_erase_filter
        (sorted_gt_sortDesc (show (_unique l).Nodup from nodup_uniqueAux l []))
        m.array,
      sortDesc_unique_filter l m.array.length]
    by_cases hf : l.filter (fun i => decide (i < m.array.length)) = []
    · rw [hf]
      rfl
    · rw [delete_rows, if_pos (List.length_pos.mpr hf)]

/-- C8: `delete_rows` on any index list equals `delete_rows` on its
order-preserving de-duplication; indices at or beyond the current row count
are silently ignored (filtering them out does not change the result); in
particular `delete_rows([2,2,5])` always produces the same result as
`delete_rows([2,5])`. -/
theorem claim8_delete_rows (m : Matrix) (l : List Nat) :
    m.delete_rows l = m.delete_rows (_unique l)
  ∧ m.delete_rows l
      = m.delete_rows (l.filter fun i => decide (i < m.number_of_rows))
  ∧ m.delete_rows [2, 2, 5] = m.delete_rows [2, 5] := by
  refine ⟨delete_rows_unique m l, delete_rows_filter m l, ?_⟩
  have h := delete_rows_unique m [2, 2, 5]
  rw [show _unique [2, 2, 5] = [2, 5] from rfl] at h
  exact h

end Pyexcel
